import Mathlib

/-
Verification of the daily news pipeline (crawling / convert-to-markdown /
auto-push orchestrator / upload-to-github publisher).

The Go sources are shallowly embedded: every external call (S3, GitHub,
the cleaning server, the extraction server) is a field of an explicit
environment record, and each handler becomes a pure function from that
environment to its response together with the externally visible effects
(object-store writes, GitHub API calls, the final branch head).
-/

set_option autoImplicit false

namespace NewsPipeline

/-! ## String helpers mirroring the Go standard library -/

/-- Substring scan on char lists: does the needle occur contiguously in the
haystack?  (The empty needle occurs in every haystack, as in Go.) -/
def listHasInfix (needle : List Char) : List Char → Bool
  | [] => needle.isEmpty
  | c :: rest => needle.isPrefixOf (c :: rest) || listHasInfix needle rest

/-- Embeds Go strings.Contains: substring test on the underlying char list. -/
def goContains (s sub : String) : Bool :=
  listHasInfix sub.data s.data

/-- Embeds Go strings.HasPrefix: used by strings.TrimPrefix. -/
def goHasPfx (s p : String) : Bool :=
  p.data.isPrefixOf s.data

/-- Embeds Go strings.TrimPrefix: drop the prefix when present, else return s. -/
def goTrimPfx (s p : String) : String :=
  if goHasPfx s p then ⟨s.data.drop p.data.length⟩ else s

/-- Embeds the component-popping loop of Go path.Clean for a ".." element:
after the unconditional out.w-- the loop keeps removing characters while the
just-removed character is not a slash and the length bound dotdot is not hit.
The output buffer is kept reversed (most recent character first). -/
def popLoop (dotdot : Nat) : List Char → Char → List Char
  | out, cLast =>
    if dotdot < out.length ∧ cLast ≠ '/' then
      match out with
      | [] => []
      | c :: rest => popLoop dotdot rest c
    else out

/-- Embeds the "case out.w > dotdot" branch of path.Clean: remove the last
component of the output, together with the slash before it when one is
above the dotdot mark. -/
def popComponent (out : List Char) (dotdot : Nat) : List Char :=
  match out with
  | [] => []
  | c :: rest => popLoop dotdot rest c

/-- Embeds the main loop of Go path.Clean.  The input is consumed from the
front, the output buffer is kept reversed.  The fuel argument only serves
structural recursion; the callers pass the input length, which every branch
of the Go loop strictly decreases, so the fuel never runs out. -/
def cleanLoop (rooted : Bool) : Nat → List Char → List Char → Nat → List Char
  | 0, _, out, _ => out
  | _ + 1, [], out, _ => out
  | fuel + 1, c :: rest, out, dotdot =>
    if c = '/' then
      cleanLoop rooted fuel rest out dotdot
    else if c = '.' ∧ (rest = [] ∨ rest.head? = some '/') then
      cleanLoop rooted fuel rest out dotdot
    else if c = '.' ∧ rest.head? = some '.' ∧
        (rest.tail = [] ∨ rest.tail.head? = some '/') then
      if dotdot < out.length then
        cleanLoop rooted fuel rest.tail (popComponent out dotdot) dotdot
      else if ¬ rooted then
        let out2 := if 0 < out.length then '/' :: out else out
        cleanLoop rooted fuel rest.tail ('.' :: '.' :: out2) (out2.length + 2)
      else
        cleanLoop rooted fuel rest.tail out dotdot
    else
      let out2 := if (rooted ∧ out.length ≠ 1) ∨ (¬ rooted ∧ out.length ≠ 0)
        then '/' :: out else out
      let elem := (c :: rest).takeWhile (fun x => x ≠ '/')
      cleanLoop rooted fuel ((c :: rest).dropWhile (fun x => x ≠ '/'))
        (elem.reverse ++ out2) dotdot

/-- Embeds Go path.Clean. -/
def goClean (p : String) : String :=
  match p.data with
  | [] => "."
  | c :: cs =>
    if c = '/' then
      let out := cleanLoop true cs.length cs ['/'] 1
      if out.length = 0 then "." else ⟨out.reverse⟩
    else
      let out := cleanLoop false (c :: cs).length (c :: cs) [] 0
      if out.length = 0 then "." else ⟨out.reverse⟩

/-- Embeds Go path.Join for exactly two elements, as called by the publisher
handler: an empty join is empty, a leading empty element is skipped, and
otherwise the elements are joined with a slash and cleaned. -/
def goJoin2 (a b : String) : String :=
  if a.data = [] ∧ b.data = [] then ""
  else if a.data = [] then goClean b
  else goClean (a ++ "/" ++ b)

/-! ## upload-to-github service (the Atomic Publisher)

The S3 and GitHub clients are modelled by explicit environments; each
remote call either returns a value or fails, matching the error returns
of the Go code. -/

/-- Embeds S3Downloader.ListFiles.  The paginator is modelled as the list of
pages it would yield; a none page is a page whose fetch fails.  The loop
accumulates the keys of each page and aborts with an error (none) as soon
as a page fetch fails, exactly as the Go loop returns nil, err. -/
def listFilesAux (acc : List String) : List (Option (List String)) → Option (List String)
  | [] => some acc
  | none :: _ => none
  | some keys :: rest => listFilesAux (acc ++ keys) rest

/-- Embeds S3Downloader.ListFiles starting from the empty accumulator. -/
def listFiles (pages : List (Option (List String))) : Option (List String) :=
  listFilesAux [] pages

/-- Assignment into a Go map modelled as an association list: an existing
key is overwritten in place, a new key is appended. -/
def upsert (m : List (String × String)) (k v : String) : List (String × String) :=
  if m.any (fun p => p.1 = k) then
    m.map (fun p => if p.1 = k then (k, v) else p)
  else m ++ [(k, v)]

/-- Embeds the repository path computed by the publisher handler for one
object key: path.Join(today, strings.TrimPrefix(fileKey, prefix)). -/
def derivePath (today pfx key : String) : String :=
  goJoin2 today (goTrimPfx key pfx)

/-- One iteration of the download-and-prepare loop of the publisher
handler: a failed download is logged and skipped (continue); a successful
one is stored in the fileContents map under the derived repository path. -/
def pubStep (download : String → Option String) (today pfx : String)
    (acc : List (String × String)) (key : String) : List (String × String) :=
  match download key with
  | none => acc
  | some content => upsert acc (derivePath today pfx key) content

/-- Embeds the download-and-prepare loop of the publisher handler
(part_003, step 4) over all listed keys, starting from the empty map. -/
def buildFileContents (download : String → Option String) (today pfx : String)
    (keys : List String) : List (String × String) :=
  keys.foldl (pubStep download today pfx) []

/-- Embeds github.TreeEntry as built by GitHubUploader.UploadFiles. -/
structure TreeEntry where
  path : String
  type : String
  content : String
  mode : String
  deriving DecidableEq, Repr

/-- Embeds the entry-building loop of UploadFiles: one blob entry with mode
100644 per entry of the fileContents map. -/
def treeEntriesOf (files : List (String × String)) : List TreeEntry :=
  files.map (fun fc => ⟨fc.1, "blob", fc.2, "100644"⟩)

/-- Environment for the GitHub Git-data API as used by UploadFiles.  head is
the SHA the branch ref currently points at; each call either succeeds with
a value or fails. -/
structure GitEnv where
  getRefOk : Bool
  head : String
  getTree : String → Option String
  createTree : String → List TreeEntry → Option String
  createCommit : String → String → String → Option String
  updateRefOk : Bool

/-- Names of the GitHub Git-data calls issued by UploadFiles, in order. -/
inductive GitCall where
  | getRef
  | getTree
  | createTree
  | createCommit
  | updateRef
  deriving DecidableEq, Repr

/-- Result of one run of UploadFiles: the Go error return, the API calls
that were issued, and the SHA the branch ref points at afterwards. -/
structure UploadOutcome where
  result : Except String Unit
  calls : List GitCall
  finalHead : String
  deriving Repr

/-- Embeds GitHubUploader.UploadFiles: get the head ref, get the base tree,
create the new tree from the file entries, create the commit with the old
head as parent, and only then update the branch ref.  Every failure
returns the corresponding error; the branch head changes only in the
final, successful UpdateRef. -/
def uploadFiles (env : GitEnv) (files : List (String × String)) (msg : String) :
    UploadOutcome :=
  if ¬ env.getRefOk then
    ⟨.error "failed to get HEAD reference", [.getRef], env.head⟩
  else
    match env.getTree env.head with
    | none => ⟨.error "failed to get base tree", [.getRef, .getTree], env.head⟩
    | some baseTreeSha =>
      let entries := treeEntriesOf files
      match env.createTree baseTreeSha entries with
      | none =>
        ⟨.error "failed to create tree", [.getRef, .getTree, .createTree], env.head⟩
      | some newTreeSha =>
        match env.createCommit msg newTreeSha env.head with
        | none =>
          ⟨.error "failed to create commit",
            [.getRef, .getTree, .createTree, .createCommit], env.head⟩
        | some commitSha =>
          if env.updateRefOk then
            ⟨.ok (), [.getRef, .getTree, .createTree, .createCommit, .updateRef],
              commitSha⟩
          else
            ⟨.error "failed to update HEAD reference",
              [.getRef, .getTree, .createTree, .createCommit, .updateRef], env.head⟩

/-- Lambda proxy response: status code and body. -/
structure Response where
  statusCode : Nat
  body : String
  deriving DecidableEq, Repr

/-- Environment of the publisher handler: the S3 listing pages for the
prefix news/{today}/, the per-key download results and the GitHub API. -/
structure PubEnv where
  pages : List (Option (List String))
  download : String → Option String
  git : GitEnv

/-- Outcome of the publisher handler: log.Fatalf aborts the process (fatal);
otherwise a response is returned, together with the UploadFiles outcome
when the GitHub upload was attempted at all. -/
inductive PubOutcome where
  | fatal (msg : String)
  | resp (r : Response) (upload : Option UploadOutcome)

/-- Embeds the publisher Handler (part_003) from the listing step on
(configuration loading is environment handling outside this model): list
the keys under news/{today}/ (log.Fatalf on listing error), download each
key skipping failures, and if any file was prepared, publish them in a
single commit, answering 500 on upload failure and 200 otherwise. -/
def pubHandler (env : PubEnv) (today : String) : PubOutcome :=
  let pfx := "news/" ++ today ++ "/"
  match listFiles env.pages with
  | none => .fatal "failed to list files in S3"
  | some keys =>
    let fileContents := buildFileContents env.download today pfx keys
    if 0 < fileContents.length then
      let outcome := uploadFiles env.git fileContents
        ("Add: 오늘의 기사 추가(" ++ today ++ ")")
      match outcome.result with
      | .error e =>
        .resp ⟨500, "\x7b\"error\": \"Failed to upload files: " ++ e ++ "\"\x7d"⟩ (some outcome)
      | .ok _ =>
        .resp ⟨200, "\x7b\"message\": \"Files uploaded successfully in a single commit\"\x7d"⟩
          (some outcome)
    else
      .resp ⟨200, "\x7b\"message\": \"Files uploaded successfully in a single commit\"\x7d"⟩
        none

/-! ## convert-to-markdown service (the Content Transformer)

FetchGPT is modelled as a function from the request content and prompt to
an optional cleaned text (none is any transport or non-200 failure). -/

/-- Embeds a news article: title, content and date. -/
structure NewsArticle where
  title : String
  content : String
  date : String
  deriving DecidableEq, Repr

/-- Embeds the content sub-pipeline goroutine of the transformer Handler
(part_004): three sequential FetchGPT calls, each sent article.Content
itself (not the previous call's output); an error at any stage returns
with the field untouched, and only the third call's output is assigned to
article.Content. -/
def contentPipeline (fetch : String → String → Option String)
    (p1 p2 p3 content : String) : String :=
  match fetch content p1 with
  | none => content
  | some _ =>
    match fetch content p2 with
    | none => content
    | some _ =>
      match fetch content p3 with
      | none => content
      | some cleaned3 => cleaned3

/-- Embeds the date sub-pipeline goroutine of the transformer Handler: a
single FetchGPT call with the fixed date-normalisation instruction (a
hard-coded Korean literal in the source, abstracted here as datePrompt);
on error the date field is left untouched. -/
def datePipeline (fetch : String → String → Option String)
    (datePrompt date : String) : String :=
  match fetch date datePrompt with
  | none => date
  | some cleaned => cleaned

/-- Embeds ConvertToMarkdown (part_004): the fixed title/content/date
Markdown layout. -/
def convertToMarkdown (a : NewsArticle) : String :=
  "# **제목: " ++ a.title ++ "**" ++ "\n\n  " ++ "내용: " ++ a.content
    ++ "\n\n  " ++ "**날짜: " ++ a.date ++ "**"

/-- Embeds the transformer Handler (part_004).  The JSON parse of the
request body is modelled by its result (none is malformed input).  The two
sub-pipelines are joined by the WaitGroup barrier; the joined article is
rendered and returned with status 200 unless the rendering is empty.  The
second component is the Go error return, which is nil on every path. -/
def transformHandler (fetch : String → String → Option String)
    (p1 p2 p3 datePrompt : String) (parsed : Option NewsArticle) :
    Response × Option String :=
  match parsed with
  | none => (⟨400, "\x7b\"error\": \"Invalid JSON input\"\x7d"⟩, none)
  | some article =>
    let article2 : NewsArticle :=
      { article with
        content := contentPipeline fetch p1 p2 p3 article.content
        date := datePipeline fetch datePrompt article.date }
    let markdown := convertToMarkdown article2
    if markdown.length = 0 then
      (⟨500, "\x7b\"error\": \"No articles processed\"\x7d"⟩, none)
    else
      (⟨200, markdown⟩, none)

/-! ## auto-push service (Category Fan-Out Coordinator and Orchestrator)

Every remote stage the coordinator drives (the extraction server, the
convert server, the S3-upload server, the GitHub-upload server) is a field
of OrchEnv.  Goroutines joined by a WaitGroup are modelled by their joint
effect: the list of successful S3 writes, in the canonical order of the
supplied category list (completion order among siblings is unordered in Go
and unobservable in the store). -/

/-- Environment of the orchestrator: scrape answers the extraction server
per section URL; convert answers the convert server per article; uploadS3
tells whether the S3-upload server accepts a given body and category
header; uploadGitHubOk tells whether the publish call succeeds. -/
structure OrchEnv where
  scrape : String → Option (List NewsArticle)
  convert : NewsArticle → Option String
  uploadS3 : String → String → Bool
  uploadGitHubOk : Bool

/-- Embeds cleanANSI: removal of every ANSI escape sequence matching the
pattern ESC [ then digits or semicolons then a letter, scanning left to
right and keeping unmatched characters. -/
def isAnsiBody (c : Char) : Bool := c.isDigit || c = ';'

/-- Letter class of the ANSI regex terminator. -/
def isAnsiFinal (c : Char) : Bool :=
  ('a' ≤ c ∧ c ≤ 'z') || ('A' ≤ c ∧ c ≤ 'Z')

/-- Scanner for cleanANSI over the char list.  The fuel argument only
serves structural recursion; every step consumes at least one character,
so the input length is always enough fuel. -/
def cleanANSIAux : Nat → List Char → List Char
  | 0, l => l
  | _ + 1, [] => []
  | fuel + 1, '\x1B' :: '[' :: rest =>
    match rest.dropWhile isAnsiBody with
    | final :: rest2 =>
      if isAnsiFinal final then cleanANSIAux fuel rest2
      else '\x1B' :: cleanANSIAux fuel ('[' :: rest)
    | [] => '\x1B' :: cleanANSIAux fuel ('[' :: rest)
  | fuel + 1, c :: rest => c :: cleanANSIAux fuel rest

/-- Embeds cleanANSI on strings. -/
def cleanANSI (s : String) : String := ⟨cleanANSIAux s.data.length s.data⟩

/-- Embeds strconv.Itoa composed with the category header construction of
UploadToS3: category + "_" + i. -/
def s3Header (category : String) (i : Nat) : String :=
  category ++ "_" ++ toString i

/-- Embeds the per-article goroutine body of processArticles together with
UploadToS3: convert the article (skip on failure), clean the markdown, and
send it to the S3-upload server under the category_index header; the write
is visible in the store exactly when the server accepts it. -/
def articleWrite (env : OrchEnv) (category : String) (i : Nat) (a : NewsArticle) :
    Option (String × String) :=
  match env.convert a with
  | none => none
  | some markdown =>
    let cleaned := cleanANSI markdown
    if env.uploadS3 cleaned (s3Header category i) then
      some (s3Header category i, cleaned)
    else none

/-- Collects the effect of one best-effort task: a failed task contributes
nothing, a successful one appends its write. -/
def collectStep {α β : Type} (g : α → Option β) (acc : List β) (x : α) : List β :=
  match g x with
  | none => acc
  | some w => acc ++ [w]

/-- Embeds processArticles (auto-push): scrape the section URL (skip the
whole category on failure), then run the per-article pipeline for every
indexed article, collecting the successful S3 writes. -/
def processArticlesWrites (env : OrchEnv) (url category : String) :
    List (String × String) :=
  match env.scrape url with
  | none => []
  | some articles =>
    articles.enum.foldl (collectStep fun ia => articleWrite env category ia.1 ia.2) []

/-- Embeds the category fan-out loop of the orchestrator Handler: one task
per supplied (category, url) pair, all joined by the WaitGroup before the
publish step; the joint store effect is the concatenation of the
per-category effects. -/
def runAllWrites (env : OrchEnv) (cats : List (String × String)) :
    List (String × String) :=
  cats.foldl (fun acc cu => acc ++ processArticlesWrites env cu.2 cu.1) []

/-- Result of one orchestrator invocation: the proxy response, the Go error
return, the store writes and whether the GitHub publish was invoked. -/
structure OrchOutcome where
  response : Response
  err : Option String
  writes : List (String × String)
  githubCalled : Bool

/-- Embeds the orchestrator Handler (auto-push): fan out over all supplied
categories, wait on the barrier, call UploadToGitHub (whose failure is
only logged), and return StatusCode 200 with a nil error unconditionally. -/
def orchHandler (env : OrchEnv) (cats : List (String × String)) : OrchOutcome :=
  let writes := runAllWrites env cats
  { response := ⟨200, ""⟩
    err := none
    writes := writes
    githubCalled := true }

/-! ## crawling service (headline extraction) -/

/-- Embeds isValidNewsLink: nonempty, contains the configured
BASE_URL_DETAIL substring, and is not a comment link. -/
def isValidNewsLink (detail link : String) : Bool :=
  0 < link.length ∧ goContains link detail ∧ ¬ goContains link "/comment/"

/-- Outcome of ScrapeHeadlines: the Go function either panics (indexing
link[0] on an empty href), returns the error "no headlines found", or
returns the collected links. -/
inductive ScrapeOutcome where
  | panicked
  | failed
  | ok (links : List String)
  deriving DecidableEq, Repr

/-- Embeds the anchor after the relative-path handling of ScrapeHeadlines:
a link starting with a slash is prefixed with BASE_URL. -/
def resolveLink (base link : String) : String :=
  if link.data.head? = some '/' then base ++ link else link

/-- Embeds the EachWithBreak loop of ScrapeHeadlines.  The document is
modelled as the list of href attributes of the matched anchors (none when
the attribute is absent).  The loop breaks once five links are collected,
panics on an empty href (Go evaluates link[0]), and otherwise keeps a
valid, not yet seen link. -/
def scrapeLoop (base detail : String) :
    List (Option String) → List String → List String → Option (List String)
  | [], links, _ => some links
  | h :: rest, links, seen =>
    if 5 ≤ links.length then some links
    else
      match h with
      | none => scrapeLoop base detail rest links seen
      | some link =>
        if link.data = [] then none
        else if isValidNewsLink detail (resolveLink base link) ∧
            ¬ seen.contains (resolveLink base link) then
          scrapeLoop base detail rest (links ++ [resolveLink base link])
            (resolveLink base link :: seen)
        else
          scrapeLoop base detail rest links seen

/-- Embeds ScrapeHeadlines: run the loop over all anchors, then answer the
error "no headlines found" exactly when no link was collected. -/
def scrapeHeadlines (base detail : String) (hrefs : List (Option String)) :
    ScrapeOutcome :=
  match scrapeLoop base detail hrefs [] [] with
  | none => .panicked
  | some [] => .failed
  | some links => .ok links

/-! ## Lemmas and claim theorems -/

/-- Failure of one of the first four GitHub calls of UploadFiles (get ref,
get base tree, create tree, create commit), at the inputs the code feeds
them. -/
def EarlyFailure (env : GitEnv) (files : List (String × String)) (msg : String) : Prop :=
  env.getRefOk = false ∨
  env.getTree env.head = none ∨
  (∃ t, env.getTree env.head = some t ∧
    env.createTree t (treeEntriesOf files) = none) ∨
  (∃ t nt, env.getTree env.head = some t ∧
    env.createTree t (treeEntriesOf files) = some nt ∧
    env.createCommit msg nt env.head = none)

/-- C1: in GitHubUploader.UploadFiles the branch-ref update runs only after
getting the head ref, getting the base tree, creating the tree and
creating the commit have all succeeded; if any of those fails, the
function returns an error, never calls UpdateRef, and the branch head is
left untouched. -/
theorem c1_upload_files_atomic :
    (∀ env files msg, EarlyFailure env files msg →
      (∃ e, (uploadFiles env files msg).result = .error e) ∧
      GitCall.updateRef ∉ (uploadFiles env files msg).calls ∧
      (uploadFiles env files msg).finalHead = env.head) ∧
    (∀ env files msg, GitCall.updateRef ∈ (uploadFiles env files msg).calls →
      env.getRefOk = true ∧
      ∃ t nt c, env.getTree env.head = some t ∧
        env.createTree t (treeEntriesOf files) = some nt ∧
        env.createCommit msg nt env.head = some c) := by
  constructor
  · intro env files msg h
    rcases h with h | h | ⟨t, ht, hct⟩ | ⟨t, nt, ht, hct, hcc⟩
    · simp [uploadFiles, h]
    · by_cases hr : env.getRefOk
      · simp [uploadFiles, hr, h]
      · simp [uploadFiles, hr]
    · by_cases hr : env.getRefOk
      · simp [uploadFiles, hr, ht, hct]
      · simp [uploadFiles, hr]
    · by_cases hr : env.getRefOk
      · simp [uploadFiles, hr, ht, hct, hcc]
      · simp [uploadFiles, hr]
  · intro env files msg h
    by_cases hr : env.getRefOk
    · refine ⟨hr, ?_⟩
      cases ht : env.getTree env.head with
      | none => simp [uploadFiles, hr, ht] at h
      | some t =>
        cases hct : env.createTree t (treeEntriesOf files) with
        | none => simp [uploadFiles, hr, ht, hct] at h
        | some nt =>
          cases hcc : env.createCommit msg nt env.head with
          | none => simp [uploadFiles, hr, ht, hct, hcc] at h
          | some c => exact ⟨t, nt, c, rfl, hct, hcc⟩
    · simp [uploadFiles, hr] at h

/-- Environment used to instantiate the C1 theorem: the very first GitHub
call (get ref) fails. -/
def envC1 : GitEnv :=
  ⟨false, "headSha", fun _ => none, fun _ _ => none, fun _ _ _ => none, true⟩

/-- Witness for C1 at a concrete environment whose get-ref call fails. -/
theorem c1_upload_files_atomic_witness :
    (∃ e, (uploadFiles envC1 [] "m").result = .error e) ∧
    GitCall.updateRef ∉ (uploadFiles envC1 [] "m").calls ∧
    (uploadFiles envC1 [] "m").finalHead = "headSha" :=
  c1_upload_files_atomic.1 envC1 [] "m" (Or.inl rfl)

/-- C3: the content sub-pipeline sends the original article content to each
of the three cleaning calls; the first two outputs are discarded and only
the third call's output becomes the new content.  The second conjunct
states that the sub-pipeline observes the cleaning service only at the
original content. -/
theorem c3_content_pipeline_resends_original :
    (∀ (fetch : String → String → Option String) p1 p2 p3 content c1 c2 c3,
      fetch content p1 = some c1 → fetch content p2 = some c2 →
      fetch content p3 = some c3 →
      contentPipeline fetch p1 p2 p3 content = c3) ∧
    (∀ (f g : String → String → Option String) p1 p2 p3 content,
      (∀ p, f content p = g content p) →
      contentPipeline f p1 p2 p3 content = contentPipeline g p1 p2 p3 content) := by
  constructor
  · intro fetch p1 p2 p3 content c1 c2 c3 h1 h2 h3
    simp [contentPipeline, h1, h2, h3]
  · intro f g p1 p2 p3 content h
    simp only [contentPipeline, h p1, h p2, h p3]

/-- Witness for C3: with a cleaning service that echoes content and prompt,
stages one and two are discarded and stage three's output is assigned. -/
theorem c3_content_pipeline_witness :
    contentPipeline (fun c p => some (c ++ p)) "1" "2" "3" "C" = "C3" :=
  c3_content_pipeline_resends_original.1 (fun c p => some (c ++ p))
    "1" "2" "3" "C" "C1" "C2" "C3" rfl rfl rfl

/-- Rendering is never empty: the fixed Markdown layout always contains its
literal heading text. -/
theorem convertToMarkdown_length_pos (a : NewsArticle) :
    0 < (convertToMarkdown a).length := by
  simp [convertToMarkdown, String.length_append]
  exact Or.inr (by decide)

/-- C4: the transformer handler never returns an error to its caller; when
a cleaning call of a sub-pipeline fails the corresponding field is left
unmodified, and the parsed article is always rendered to Markdown from the
sub-pipeline results and answered with status 200. -/
theorem c4_transform_never_fails
    (fetch : String → String → Option String) (p1 p2 p3 dp : String)
    (parsed : Option NewsArticle) :
    (transformHandler fetch p1 p2 p3 dp parsed).2 = none ∧
    (∀ a, parsed = some a →
      (transformHandler fetch p1 p2 p3 dp parsed).1.statusCode = 200 ∧
      (transformHandler fetch p1 p2 p3 dp parsed).1.body =
        convertToMarkdown
          { a with
            content := contentPipeline fetch p1 p2 p3 a.content
            date := datePipeline fetch dp a.date } ∧
      ((fetch a.content p1 = none ∨ fetch a.content p2 = none ∨
          fetch a.content p3 = none) →
        contentPipeline fetch p1 p2 p3 a.content = a.content) ∧
      (fetch a.date dp = none → datePipeline fetch dp a.date = a.date)) := by
  constructor
  · cases parsed with
    | none => rfl
    | some a =>
      simp only [transformHandler]
      split <;> rfl
  · intro a ha
    subst ha
    have hlen := convertToMarkdown_length_pos
      { a with
        content := contentPipeline fetch p1 p2 p3 a.content
        date := datePipeline fetch dp a.date }
    refine ⟨?_, ?_, ?_, ?_⟩
    · simp only [transformHandler]
      rw [if_neg (by omega)]
    · simp only [transformHandler]
      rw [if_neg (by omega)]
    · intro h
      rcases h with h | h | h
      · simp [contentPipeline, h]
      · cases h1 : fetch a.content p1 <;> simp [contentPipeline, h1, h]
      · cases h1 : fetch a.content p1 <;>
          cases h2 : fetch a.content p2 <;>
          simp [contentPipeline, h1, h2, h]
    · intro h
      simp [datePipeline, h]

/-- Witness for C4: with a cleaning service that always fails, the handler
answers 200, renders the original fields, and both fields stay unmodified. -/
theorem c4_transform_never_fails_witness :
    (transformHandler (fun _ _ => none) "p1" "p2" "p3" "dp"
        (some ⟨"T", "C", "D"⟩)).2 = none ∧
    (transformHandler (fun _ _ => none) "p1" "p2" "p3" "dp"
        (some ⟨"T", "C", "D"⟩)).1.statusCode = 200 ∧
    contentPipeline (fun _ _ => none) "p1" "p2" "p3" "C" = "C" ∧
    datePipeline (fun _ _ => none) "dp" "D" = "D" := by
  have h := c4_transform_never_fails (fun _ _ => none) "p1" "p2" "p3" "dp"
    (some ⟨"T", "C", "D"⟩)
  have h2 := h.2 ⟨"T", "C", "D"⟩ rfl
  exact ⟨h.1, h2.1, h2.2.2.1 (Or.inl rfl), h2.2.2.2 rfl⟩

/-- C5: the orchestrator handler reports success (status 200, nil error) to
its invoker on every invocation, whatever the categories and however the
remote stages behave. -/
theorem c5_orchestrator_always_succeeds (env : OrchEnv)
    (cats : List (String × String)) :
    (orchHandler env cats).response.statusCode = 200 ∧
    (orchHandler env cats).err = none :=
  ⟨rfl, rfl⟩

/-- C6: when the day's listing yields zero keys, the publisher handler
skips the GitHub upload entirely (no UploadFiles run, hence no commit and
no ref update) and still answers 200. -/
theorem c6_empty_batch_noop (env : PubEnv) (today : String)
    (h : listFiles env.pages = some []) :
    pubHandler env today =
      .resp ⟨200, "\x7b\"message\": \"Files uploaded successfully in a single commit\"\x7d"⟩
        none := by
  simp [pubHandler, h, buildFileContents]

/-- Environment used to instantiate the C6 theorem: the paginator yields no
pages at all, so the listing is empty. -/
def envC6 : PubEnv :=
  ⟨[], fun _ => none,
    ⟨true, "h0", fun _ => none, fun _ _ => none, fun _ _ _ => none, true⟩⟩

/-- Witness for C6 at a concrete environment with an empty listing. -/
theorem c6_empty_batch_noop_witness :
    pubHandler envC6 "2025-01-01" =
      .resp ⟨200, "\x7b\"message\": \"Files uploaded successfully in a single commit\"\x7d"⟩
        none :=
  c6_empty_batch_noop envC6 "2025-01-01" rfl

/-- Helper for C7: the listing loop accumulates the keys of all pages when
every page fetch succeeds. -/
theorem listFilesAux_all_some :
    ∀ (pss : List (List String)) (acc : List String),
      listFilesAux acc (pss.map some) = some (acc ++ pss.flatten) := by
  intro pss
  induction pss with
  | nil => intro acc; simp [listFilesAux]
  | cons ps rest ih =>
    intro acc
    simp [listFilesAux, ih (acc ++ ps)]

/-- Helper for C7: a failing page fetch makes the whole listing fail. -/
theorem listFilesAux_page_failure :
    ∀ (pages : List (Option (List String))) (acc : List String),
      none ∈ pages → listFilesAux acc pages = none := by
  intro pages
  induction pages with
  | nil => intro acc h; cases h
  | cons p rest ih =>
    intro acc h
    cases p with
    | none => rfl
    | some ps =>
      rcases h with _ | h
      exact ih (acc ++ ps) (by assumption)

/-- C7: ListFiles returns every key of every page of the paginated listing
(it exhausts the paginator before returning), and returns an error as soon
as any page fetch fails. -/
theorem c7_list_files_exhausts_pages :
    (∀ pss : List (List String), listFiles (pss.map some) = some pss.flatten) ∧
    (∀ pages : List (Option (List String)), none ∈ pages →
      listFiles pages = none) := by
  constructor
  · intro pss
    simpa using listFilesAux_all_some pss []
  · intro pages h
    exact listFilesAux_page_failure pages [] h

/-- Witness for C7: a two-page listing is concatenated in order, and a
listing whose second page fails reports failure. -/
theorem c7_list_files_witness :
    listFiles [some ["a", "b"], some ["c"]] = some ["a", "b", "c"] ∧
    listFiles [some ["a"], none] = none :=
  ⟨c7_list_files_exhausts_pages.1 [["a", "b"], ["c"]],
    c7_list_files_exhausts_pages.2 [some ["a"], none] (by simp)⟩

/-- Helper: a fold that appends a block per element is the flattening of
the per-element blocks. -/
theorem foldl_append_blocks {α β : Type} (f : α → List β) :
    ∀ (l : List α) (acc : List β),
      l.foldl (fun a x => a ++ f x) acc = acc ++ (l.map f).flatten := by
  intro l
  induction l with
  | nil => intro acc; simp
  | cons x rest ih => intro acc; simp [ih (acc ++ f x)]

/-- Helper: a fold that appends one element per successful step is the
filterMap of the steps. -/
theorem foldl_collect_filterMap {α β : Type} (g : α → Option β) :
    ∀ (l : List α) (acc : List β),
      l.foldl (collectStep g) acc = acc ++ l.filterMap g := by
  intro l
  induction l with
  | nil => intro acc; simp
  | cons x rest ih =>
    intro acc
    cases hg : g x with
    | none => simp [List.foldl_cons, collectStep, hg, ih acc]
    | some w => simp [List.foldl_cons, collectStep, hg, ih (acc ++ [w])]

/-- Helper for C9: the per-article pipeline only looks at the convert and
S3-upload stages of the environment. -/
theorem articleWrite_congr (env env2 : OrchEnv) (cat : String) (i : Nat)
    (a : NewsArticle) (hc : env.convert = env2.convert)
    (hu : env.uploadS3 = env2.uploadS3) :
    articleWrite env cat i a = articleWrite env2 cat i a := by
  simp [articleWrite, hc, hu]

/-- C9: the coordinator's joint store effect decomposes per category and
per article: a category whose extraction fails contributes nothing, an
article whose conversion fails is skipped individually, a category's
contribution depends only on the stages it calls, and the handler always
completes with the concatenation of the per-category effects. -/
theorem c9_coordinator_partial_failure :
    (∀ env cats, orchHandler env cats =
      ⟨⟨200, ""⟩, none,
        (cats.map fun cu => processArticlesWrites env cu.2 cu.1).flatten, true⟩) ∧
    (∀ env url cat, env.scrape url = none →
      processArticlesWrites env url cat = []) ∧
    (∀ env url cat arts, env.scrape url = some arts →
      processArticlesWrites env url cat =
        arts.enum.filterMap fun ia => articleWrite env cat ia.1 ia.2) ∧
    (∀ env cat i a, env.convert a = none → articleWrite env cat i a = none) ∧
    (∀ (env env2 : OrchEnv) url cat, env.scrape url = env2.scrape url →
      env.convert = env2.convert → env.uploadS3 = env2.uploadS3 →
      processArticlesWrites env url cat = processArticlesWrites env2 url cat) := by
  refine ⟨?_, ?_, ?_, ?_, ?_⟩
  · intro env cats
    show OrchOutcome.mk _ _ (runAllWrites env cats) _ = _
    rw [runAllWrites,
      foldl_append_blocks (fun cu => processArticlesWrites env cu.2 cu.1) cats []]
    rfl
  · intro env url cat h
    simp [processArticlesWrites, h]
  · intro env url cat arts h
    simp only [processArticlesWrites, h]
    have h2 := foldl_collect_filterMap
      (fun ia : Nat × NewsArticle => articleWrite env cat ia.1 ia.2) arts.enum []
    rw [List.nil_append] at h2
    exact h2
  · intro env cat i a h
    simp [articleWrite, h]
  · intro env env2 url cat hs hc hu
    simp only [processArticlesWrites, hs]
    cases env2.scrape url with
    | none => rfl
    | some arts =>
      have : (collectStep fun ia : Nat × NewsArticle =>
            articleWrite env cat ia.1 ia.2) =
          (collectStep fun ia => articleWrite env2 cat ia.1 ia.2) := by
        funext acc ia
        simp only [collectStep, articleWrite_congr env env2 cat ia.1 ia.2 hc hu]
      simp only [this]

/-- Environment used to instantiate the C9 theorem: every extraction call
fails. -/
def envC9 : OrchEnv :=
  ⟨fun _ => none, fun _ => none, fun _ _ => true, true⟩

/-- Witness for C9: a category whose extraction call fails contributes no
store writes. -/
theorem c9_coordinator_partial_failure_witness :
    processArticlesWrites envC9 "https://news.naver.com/section/100" "politics" = [] :=
  c9_coordinator_partial_failure.2.1 envC9
    "https://news.naver.com/section/100" "politics" rfl

/-! ## Path-shape lemmas for the publisher (C2, C8)

A SimpleSeg is a path segment as produced by the pipeline key layout:
nonempty, slash-free, and not starting with a dot, so that path.Clean
keeps it verbatim. -/

/-- Path segment on which path.Clean acts trivially: nonempty, without
slashes, not starting with a dot. -/
def SimpleSeg (l : List Char) : Prop :=
  l ≠ [] ∧ (∀ c ∈ l, c ≠ '/') ∧ l.head? ≠ some '.'

instance (l : List Char) : Decidable (SimpleSeg l) := by
  unfold SimpleSeg; infer_instance

/-- The cleaning loop is the identity on an exhausted input. -/
theorem cleanLoop_nil (rooted : Bool) (f : Nat) (out : List Char) (dd : Nat) :
    cleanLoop rooted f [] out dd = out := by
  cases f <;> rfl

/-- A step of the cleaning loop on a leading slash just drops it. -/
theorem cleanLoop_slash_step (rooted : Bool) (f : Nat) (rest out : List Char)
    (dd : Nat) :
    cleanLoop rooted (f + 1) ('/' :: rest) out dd = cleanLoop rooted f rest out dd := by
  simp only [cleanLoop]
  rw [if_pos trivial]

/-- A step of the cleaning loop on an ordinary component copies the whole
component (up to the next slash) into the output, separated by a slash
when the output already holds something. -/
theorem cleanLoop_elem_step (rooted : Bool) (f : Nat) (c : Char)
    (rest out : List Char) (dd : Nat) (hc1 : c ≠ '/') (hc2 : c ≠ '.') :
    cleanLoop rooted (f + 1) (c :: rest) out dd =
      cleanLoop rooted f ((c :: rest).dropWhile (fun x => x ≠ '/'))
        (((c :: rest).takeWhile (fun x => x ≠ '/')).reverse ++
          (if (rooted ∧ out.length ≠ 1) ∨ (¬ rooted ∧ out.length ≠ 0)
            then '/' :: out else out)) dd := by
  simp only [cleanLoop]
  rw [if_neg hc1, if_neg (fun h => hc2 h.1), if_neg (fun h => hc2 h.1)]

/-- The cleaning loop on two simple slash-free components is the reversal
of the input. -/
theorem cleanLoop_two_components (d s : List Char) (f : Nat)
    (hd : SimpleSeg d) (hs : SimpleSeg s)
    (hf : d.length + s.length + 1 ≤ f) :
    cleanLoop false f (d ++ '/' :: s) [] 0 = s.reverse ++ '/' :: d.reverse := by
  obtain ⟨hd1, hd2, hd3⟩ := hd
  obtain ⟨hs1, hs2, hs3⟩ := hs
  obtain ⟨c, d2, rfl⟩ := List.exists_cons_of_ne_nil hd1
  obtain ⟨c2, s2, rfl⟩ := List.exists_cons_of_ne_nil hs1
  have hc1 : c ≠ '/' := hd2 c (List.mem_cons_self c d2)
  have hc2 : c ≠ '.' := by
    intro h; exact hd3 (by simp [h])
  have hc21 : c2 ≠ '/' := hs2 c2 (List.mem_cons_self c2 s2)
  have hc22 : c2 ≠ '.' := by
    intro h; exact hs3 (by simp [h])
  obtain ⟨k, rfl⟩ : ∃ k, f = k + 3 := by
    refine ⟨f - 3, ?_⟩
    simp only [List.length_cons] at hf
    omega
  have htake : ((c :: d2) ++ '/' :: c2 :: s2).takeWhile (fun x => x ≠ '/')
      = c :: d2 := by
    rw [List.takeWhile_append_of_pos (by
      intro a ha
      simpa using hd2 a ha)]
    simp
  have hdrop : ((c :: d2) ++ '/' :: c2 :: s2).dropWhile (fun x => x ≠ '/')
      = '/' :: c2 :: s2 := by
    rw [List.dropWhile_append_of_pos (by
      intro a ha
      simpa using hd2 a ha)]
    simp
  have htake2 : (c2 :: s2).takeWhile (fun x => x ≠ '/') = c2 :: s2 := by
    rw [show c2 :: s2 = (c2 :: s2) ++ [] by simp,
      List.takeWhile_append_of_pos (by
        intro a ha
        simpa using hs2 a ha)]
    simp
  have hdrop2 : (c2 :: s2).dropWhile (fun x => x ≠ '/') = [] := by
    rw [show c2 :: s2 = (c2 :: s2) ++ [] by simp,
      List.dropWhile_append_of_pos (by
        intro a ha
        simpa using hs2 a ha)]
    simp
  rw [show (c :: d2) ++ '/' :: c2 :: s2 = c :: (d2 ++ '/' :: c2 :: s2) by simp,
    cleanLoop_elem_step false (k + 2) c _ [] 0 hc1 hc2,
    show c :: (d2 ++ '/' :: c2 :: s2) = (c :: d2) ++ '/' :: c2 :: s2 by simp,
    htake, hdrop, cleanLoop_slash_step,
    cleanLoop_elem_step false k c2 s2 _ 0 hc21 hc22,
    htake2, hdrop2, cleanLoop_nil]
  simp

/-- Go path.Clean keeps a two-component path of simple segments verbatim. -/
theorem goClean_two_components (d s : List Char)
    (hd : SimpleSeg d) (hs : SimpleSeg s) :
    goClean ⟨d ++ '/' :: s⟩ = ⟨d ++ '/' :: s⟩ := by
  obtain ⟨hd1, hd2, hd3⟩ := hd
  obtain ⟨c, d2, rfl⟩ := List.exists_cons_of_ne_nil hd1
  have hc1 : c ≠ '/' := hd2 c (List.mem_cons_self c d2)
  have hloop := cleanLoop_two_components (c :: d2) s
    ((c :: d2) ++ '/' :: s).length ⟨hd1, hd2, hd3⟩ hs (by simp; omega)
  show goClean ⟨c :: (d2 ++ '/' :: s)⟩ = _
  rw [goClean]
  simp only [List.cons_append] at hloop
  simp only [if_neg hc1, hloop]
  rw [if_neg (by simp)]
  congr 1
  simp
/-- Joining two simple segments is literally segment-slash-segment. -/
theorem goJoin2_simple (a b : String) (ha : SimpleSeg a.data) (hb : SimpleSeg b.data) :
    goJoin2 a b = a ++ "/" ++ b := by
  rw [goJoin2, if_neg (fun h => ha.1 h.1), if_neg ha.1]
  have habs : a ++ "/" ++ b = ⟨a.data ++ '/' :: b.data⟩ := by
    apply String.ext
    simp
  rw [habs, goClean_two_components a.data b.data ha hb]

/-- Trimming a prefix off its own extension leaves the extension. -/
theorem goTrimPfx_append (a b : String) : goTrimPfx (a ++ b) a = b := by
  have hp : goHasPfx (a ++ b) a = true := by
    simp [goHasPfx]
  rw [goTrimPfx, if_pos hp]
  apply String.ext
  simp [List.drop_left]

/-- A key that extends the prefix with a simple segment is re-rooted under
the date folder with the segment kept verbatim. -/
theorem derivePath_of_pfx (today pfx k : String)
    (hk : goHasPfx k pfx = true)
    (hs : SimpleSeg (k.data.drop pfx.data.length))
    (hd : SimpleSeg today.data) :
    derivePath today pfx k = ⟨today.data ++ '/' :: k.data.drop pfx.data.length⟩ := by
  rw [derivePath, goTrimPfx, if_pos hk,
    goJoin2_simple today ⟨k.data.drop pfx.data.length⟩ hd hs]
  apply String.ext
  simp

/-- C8 (amended): a stored key of shape news/{date}/{name} with a simple
file name is mapped to the repository path {date}/{name}: the prefix is
stripped and the very same name, index suffix included, is re-rooted under
the date folder. -/
theorem c8_key_to_repo_path (today name : String)
    (hd : SimpleSeg today.data) (hn : SimpleSeg name.data) :
    derivePath today ("news/" ++ today ++ "/") ("news/" ++ today ++ "/" ++ name)
      = today ++ "/" ++ name := by
  rw [show ("news/" ++ today ++ "/" ++ name : String)
      = ("news/" ++ today ++ "/") ++ name from String.ext (by simp),
    derivePath, goTrimPfx_append, goJoin2_simple today name hd hn]

/-- Witness for C8 at the generated key layout for one concrete day,
category and index. -/
theorem c8_key_to_repo_path_witness :
    derivePath "2025-01-01" ("news/" ++ "2025-01-01" ++ "/")
      ("news/" ++ "2025-01-01" ++ "/" ++ "2025-01-01_economy_0.md")
      = "2025-01-01" ++ "/" ++ "2025-01-01_economy_0.md" :=
  c8_key_to_repo_path "2025-01-01" "2025-01-01_economy_0.md"
    (by decide) (by decide)

/-- Counterexample for C8 as stated: the repository path keeps the
_{index} suffix of the object key, so the claimed layout
{date}/{date}_{category}.md is not what the code produces. -/
theorem c8_counterexample :
    derivePath "2025-01-01" "news/2025-01-01/"
        "news/2025-01-01/2025-01-01_economy_0.md"
      = "2025-01-01/2025-01-01_economy_0.md" ∧
    ("2025-01-01/2025-01-01_economy_0.md" : String)
      ≠ "2025-01-01/2025-01-01_economy.md" := by
  constructor
  · decide
  · decide

/-- Inserting a key that is not yet in the map appends it. -/
theorem upsert_fresh (m : List (String × String)) (k v : String)
    (h : ∀ p ∈ m, p.1 ≠ k) : upsert m k v = m ++ [(k, v)] := by
  rw [upsert, if_neg]
  simp only [List.any_eq_true, decide_eq_true_eq, not_exists]
  intro p
  rw [not_and]
  exact h p

/-- Helper for C2: when the derived paths of the successfully downloaded
keys are pairwise distinct and disjoint from the accumulator, the
download-and-prepare loop appends exactly one map entry per successful
key, in listing order. -/
theorem foldl_pubStep_eq (download : String → Option String) (today pfx : String) :
    ∀ (keys : List String) (acc : List (String × String)),
      ((keys.filterMap fun k =>
        (download k).map fun c => (derivePath today pfx k, c)).map Prod.fst).Nodup →
      (∀ q ∈ keys.filterMap fun k =>
          (download k).map fun c => (derivePath today pfx k, c),
        ∀ p ∈ acc, p.1 ≠ q.1) →
      keys.foldl (pubStep download today pfx) acc
        = acc ++ keys.filterMap fun k =>
            (download k).map fun c => (derivePath today pfx k, c) := by
  intro keys
  induction keys with
  | nil => intro acc _ _; simp
  | cons k rest ih =>
    intro acc hnd hacc
    cases hdl : download k with
    | none =>
      have hfm : ((k :: rest).filterMap fun k2 =>
          (download k2).map fun c2 => (derivePath today pfx k2, c2))
          = rest.filterMap fun k2 =>
            (download k2).map fun c2 => (derivePath today pfx k2, c2) := by
        simp [List.filterMap_cons, hdl]
      rw [hfm] at hnd hacc
      rw [List.foldl_cons,
        show pubStep download today pfx acc k = acc from by simp [pubStep, hdl],
        hfm]
      exact ih acc hnd hacc
    | some c =>
      have hfm : ((k :: rest).filterMap fun k2 =>
          (download k2).map fun c2 => (derivePath today pfx k2, c2))
          = (derivePath today pfx k, c) :: rest.filterMap fun k2 =>
            (download k2).map fun c2 => (derivePath today pfx k2, c2) := by
        simp [List.filterMap_cons, hdl]
      rw [hfm] at hnd hacc
      rw [List.map_cons] at hnd
      have hnd2 := List.nodup_cons.mp hnd
      have hfresh : ∀ p ∈ acc, p.1 ≠ derivePath today pfx k :=
        fun p hp => hacc (derivePath today pfx k, c) (List.mem_cons_self _ _) p hp
      rw [List.foldl_cons,
        show pubStep download today pfx acc k
          = upsert acc (derivePath today pfx k) c from by simp [pubStep, hdl],
        hfm, upsert_fresh acc _ c hfresh,
        ih (acc ++ [(derivePath today pfx k, c)]) hnd2.2 ?fresh]
      · simp
      case fresh =>
        intro q hq p hp
        rcases List.mem_append.mp hp with hp2 | hp2
        · exact hacc q (List.mem_cons_of_mem _ hq) p hp2
        · have hpd : p = (derivePath today pfx k, c) := by simpa using hp2
          subst hpd
          show (derivePath today pfx k, c).1 ≠ q.1
          intro hcontra
          apply hnd2.1
          have hmem : q.1 ∈ (rest.filterMap fun k2 =>
              (download k2).map fun c2 => (derivePath today pfx k2, c2)).map Prod.fst :=
            List.mem_map_of_mem Prod.fst hq
          rw [← hcontra] at hmem
          exact hmem

/-- Helper for C2: the map of successful downloads lists the derived path
of every key when all downloads succeed. -/
theorem map_fst_filterMap_dl (download : String → Option String) (today pfx : String) :
    ∀ keys : List String, (∀ k ∈ keys, (download k).isSome = true) →
      ((keys.filterMap fun k =>
        (download k).map fun c => (derivePath today pfx k, c)).map Prod.fst)
        = keys.map (derivePath today pfx) := by
  intro keys
  induction keys with
  | nil => intro _; simp
  | cons k rest ih =>
    intro h
    obtain ⟨c, hc⟩ := Option.isSome_iff_exists.mp (h k (by simp))
    simp only [List.filterMap_cons, hc, Option.map_some', List.map_cons]
    rw [ih (fun k2 hk2 => h k2 (by simp [hk2]))]

/-- Helper for C2: counting map entries by a path predicate is counting
keys by the predicate on their derived path, when all downloads succeed. -/
theorem countP_filterMap_dl (download : String → Option String) (today pfx : String)
    (p : String → Bool) :
    ∀ keys : List String, (∀ k ∈ keys, (download k).isSome = true) →
      (keys.filterMap fun k =>
        (download k).map fun c => (derivePath today pfx k, c)).countP (fun q => p q.1)
        = keys.countP (fun k => p (derivePath today pfx k)) := by
  intro keys
  induction keys with
  | nil => intro _; simp
  | cons k rest ih =>
    intro h
    obtain ⟨c, hc⟩ := Option.isSome_iff_exists.mp (h k (by simp))
    simp only [List.filterMap_cons, hc, Option.map_some', List.countP_cons,
      ih (fun k2 hk2 => h k2 (by simp [hk2]))]

/-- Helper for C2: in a duplicate-free list every member is counted
exactly once. -/
theorem countP_beq_of_nodup (l : List String) (a : String)
    (h : l.Nodup) (ha : a ∈ l) : l.countP (fun x => x == a) = 1 := by
  induction l with
  | nil => cases ha
  | cons x rest ih =>
    rw [List.countP_cons]
    have hnd := List.nodup_cons.mp h
    rcases List.mem_cons.mp ha with heq | hmem
    · subst heq
      have hzero : rest.countP (fun y => y == a) = 0 := by
        rw [List.countP_eq_zero]
        intro y hy
        simp only [beq_iff_eq]
        exact fun hya => hnd.1 (hya ▸ hy)
      simp [hzero]
    · have hne : (x == a) = false := by
        simp only [beq_eq_false_iff_ne, ne_eq]
        exact fun hxa => hnd.1 (hxa ▸ hmem)
      rw [ih hnd.2 hmem, hne]
      simp

/-- Helper for C2/C8: a verified prefix plus the trimmed remainder is the
whole key back. -/
theorem goHasPfx_restore (s p : String) (h : goHasPfx s p = true) :
    p.data ++ s.data.drop p.data.length = s.data := by
  rw [goHasPfx] at h
  obtain ⟨t, ht⟩ := List.isPrefixOf_iff_prefix.mp h
  rw [← ht, List.drop_left]

/-- Helper for C2: on prefixed keys with simple remainders the derived
repository paths of distinct keys are distinct. -/
theorem derivePath_nodup (today pfx : String) (keys : List String)
    (h2 : keys.Nodup)
    (h3 : ∀ k ∈ keys, goHasPfx k pfx = true ∧ SimpleSeg (k.data.drop pfx.data.length))
    (h4 : SimpleSeg today.data) :
    (keys.map (derivePath today pfx)).Nodup := by
  refine h2.map_on ?_
  intro x hx y hy hxy
  obtain ⟨hkx, hsx⟩ := h3 x hx
  obtain ⟨hky, hsy⟩ := h3 y hy
  rw [derivePath_of_pfx today pfx x hkx hsx h4,
    derivePath_of_pfx today pfx y hky hsy h4] at hxy
  have hdata : today.data ++ '/' :: x.data.drop pfx.data.length
      = today.data ++ '/' :: y.data.drop pfx.data.length :=
    congrArg String.data hxy
  have hdrop : x.data.drop pfx.data.length = y.data.drop pfx.data.length := by
    have htail := List.append_cancel_left hdata
    injection htail
  apply String.ext
  rw [← goHasPfx_restore x pfx hkx, ← goHasPfx_restore y pfx hky, hdrop]

/-- C2 (amended): for every key listed under the date prefix whose download
succeeds, the publish batch holds exactly one tree entry at the key's
derived repository path, and every tree entry of the batch comes from
exactly one such key (here: all downloads succeed, the listing is
duplicate-free, and the keys extend the prefix by simple file names, as
the pipeline's generated layout does). -/
theorem c2_publish_batch_bijection (download : String → Option String)
    (today pfx : String) (keys : List String)
    (h1 : ∀ k ∈ keys, (download k).isSome = true)
    (h2 : keys.Nodup)
    (h3 : ∀ k ∈ keys, goHasPfx k pfx = true ∧ SimpleSeg (k.data.drop pfx.data.length))
    (h4 : SimpleSeg today.data) :
    (∀ k ∈ keys,
      (treeEntriesOf (buildFileContents download today pfx keys)).countP
        (fun e => e.path == derivePath today pfx k) = 1) ∧
    (∀ e ∈ treeEntriesOf (buildFileContents download today pfx keys),
      keys.countP (fun k => derivePath today pfx k == e.path) = 1) := by
  have hnodup : (keys.map (derivePath today pfx)).Nodup :=
    derivePath_nodup today pfx keys h2 h3 h4
  have hmapfst := map_fst_filterMap_dl download today pfx keys h1
  have hfc : buildFileContents download today pfx keys
      = keys.filterMap fun k => (download k).map fun c => (derivePath today pfx k, c) := by
    rw [buildFileContents, foldl_pubStep_eq download today pfx keys []
      (hmapfst ▸ hnodup) (by simp), List.nil_append]
  have hcount : ∀ d : String,
      keys.countP (fun k => derivePath today pfx k == d)
        = (keys.map (derivePath today pfx)).countP (fun x => x == d) := by
    intro d
    rw [List.countP_map]
    rfl
  constructor
  · intro k hk
    rw [hfc, treeEntriesOf, List.countP_map]
    show (keys.filterMap fun k2 =>
      (download k2).map fun c => (derivePath today pfx k2, c)).countP
        (fun q => q.1 == derivePath today pfx k) = 1
    rw [countP_filterMap_dl download today pfx
      (fun x => x == derivePath today pfx k) keys h1, hcount]
    exact countP_beq_of_nodup _ _ hnodup
      (List.mem_map_of_mem (derivePath today pfx) hk)
  · intro e he
    rw [hfc] at he
    rw [treeEntriesOf] at he
    obtain ⟨q, hq, rfl⟩ := List.mem_map.mp he
    obtain ⟨k, hk, hqk⟩ := List.mem_filterMap.mp hq
    obtain ⟨c, hc⟩ := Option.isSome_iff_exists.mp (h1 k hk)
    rw [hc, Option.map_some', Option.some.injEq] at hqk
    subst hqk
    show keys.countP (fun k2 => derivePath today pfx k2 == derivePath today pfx k) = 1
    rw [hcount]
    exact countP_beq_of_nodup _ _ hnodup
      (List.mem_map_of_mem (derivePath today pfx) hk)

/-- Witness for C2 at a one-key batch whose download succeeds. -/
theorem c2_publish_batch_bijection_witness :
    (treeEntriesOf (buildFileContents (fun _ => some "A") "2025-01-01"
        "news/2025-01-01/" ["news/2025-01-01/a.md"])).countP
      (fun e => e.path ==
        derivePath "2025-01-01" "news/2025-01-01/" "news/2025-01-01/a.md") = 1 :=
  (c2_publish_batch_bijection (fun _ => some "A") "2025-01-01" "news/2025-01-01/"
    ["news/2025-01-01/a.md"] (by decide) (by decide) (by decide) (by decide)).1
    "news/2025-01-01/a.md" (by decide)

/-- Keys of the C2 counterexample run: two keys listed under the day's
prefix. -/
def keysC2 : List String := ["news/2025-01-01/a.md", "news/2025-01-01/b.md"]

/-- Downloads of the C2 counterexample run: the first key downloads, the
second download fails. -/
def dlC2 : String → Option String :=
  fun k => if k = "news/2025-01-01/a.md" then some "A" else none

/-- Counterexample for C2 as stated: with both keys listed but one download
failing, the batch still commits (one entry) while the failed key maps to
no tree entry at all — the claimed key-to-entry bijection does not hold on
every run. -/
theorem c2_counterexample :
    listFiles [some keysC2] = some keysC2 ∧
    "news/2025-01-01/b.md" ∈ keysC2 ∧
    (treeEntriesOf (buildFileContents dlC2 "2025-01-01" "news/2025-01-01/" keysC2)).length
      = 1 ∧
    (treeEntriesOf (buildFileContents dlC2 "2025-01-01" "news/2025-01-01/" keysC2)).countP
      (fun e => e.path ==
        derivePath "2025-01-01" "news/2025-01-01/" "news/2025-01-01/b.md") = 0 := by
  refine ⟨rfl, by decide, by decide, by decide⟩

/-- Membership reading of the seen-set test of the headline loop. -/
theorem contains_iff_mem (seen : List String) (a : String) :
    seen.contains a = true ↔ a ∈ seen := by
  simp [List.contains]

/-- Invariant of the EachWithBreak loop of ScrapeHeadlines: starting from a
short, duplicate-free, all-valid link list mirrored by the seen set, and a
document without empty hrefs, the loop never panics and returns at most
five pairwise distinct valid links; it comes back empty exactly when it
started empty and no anchor of the document resolves to a valid link. -/
theorem scrapeLoop_spec (base detail : String) :
    ∀ (hrefs : List (Option String)) (links seen : List String),
      (∀ h ∈ hrefs, h ≠ some "") →
      links.length ≤ 5 →
      links.Nodup →
      (∀ l ∈ links, isValidNewsLink detail l = true) →
      (∀ l, l ∈ links ↔ l ∈ seen) →
      ∃ res, scrapeLoop base detail hrefs links seen = some res ∧
        res.length ≤ 5 ∧ res.Nodup ∧
        (∀ l ∈ res, isValidNewsLink detail l = true) ∧
        (res = [] ↔ (links = [] ∧ ∀ h2 ∈ hrefs, ∀ s, h2 = some s →
          isValidNewsLink detail (resolveLink base s) = false)) := by
  intro hrefs
  induction hrefs with
  | nil =>
    intro links seen _ h5 hnd hval _
    refine ⟨links, rfl, h5, hnd, hval, ?_⟩
    simp
  | cons h rest ih =>
    intro links seen hne h5 hnd hval hiff
    have hne2 : ∀ h2 ∈ rest, h2 ≠ some "" :=
      fun h2 hh2 => hne h2 (List.mem_cons_of_mem _ hh2)
    by_cases hfull : 5 ≤ links.length
    · have hln : links ≠ [] := by
        intro h0
        rw [h0] at hfull
        simp at hfull
      refine ⟨links, by simp [scrapeLoop, hfull], h5, hnd, hval,
        ⟨fun h0 => absurd h0 hln, fun h0 => absurd h0.1 hln⟩⟩
    · cases h with
      | none =>
        have hstep : scrapeLoop base detail (none :: rest) links seen
            = scrapeLoop base detail rest links seen := by
          simp [scrapeLoop, hfull]
        obtain ⟨res, heq, hl, hn, hv, hi⟩ := ih links seen hne2 h5 hnd hval hiff
        refine ⟨res, hstep.trans heq, hl, hn, hv, ?_⟩
        rw [hi]
        constructor
        · rintro ⟨h0, hall⟩
          refine ⟨h0, ?_⟩
          intro h2 hh2 s hs
          rcases List.mem_cons.mp hh2 with rfl | hh3
          · cases hs
          · exact hall h2 hh3 s hs
        · rintro ⟨h0, hall⟩
          exact ⟨h0, fun h2 hh2 s hs => hall h2 (List.mem_cons_of_mem _ hh2) s hs⟩
      | some link =>
        have hlink : link ≠ "" := by
          intro h0
          exact hne (some link) (List.mem_cons_self _ _) (by rw [h0])
        have hdata : ¬ (link.data = []) := fun hd => hlink (String.ext hd)
        by_cases hcond : isValidNewsLink detail (resolveLink base link) = true ∧
            ¬ seen.contains (resolveLink base link) = true
        · have hstep : scrapeLoop base detail (some link :: rest) links seen
              = scrapeLoop base detail rest (links ++ [resolveLink base link])
                (resolveLink base link :: seen) := by
            simp only [scrapeLoop]
            rw [if_neg hfull, if_neg hdata, if_pos hcond]
          have hnotmem : resolveLink base link ∉ links := by
            intro hm
            exact hcond.2 ((contains_iff_mem seen _).mpr
              ((hiff (resolveLink base link)).mp hm))
          obtain ⟨res, heq, hl, hn, hv, hi⟩ :=
            ih (links ++ [resolveLink base link]) (resolveLink base link :: seen)
              hne2
              (by
                have := Nat.lt_of_not_le hfull
                simp only [List.length_append, List.length_singleton]
                omega)
              (hnd.append (List.nodup_singleton _) (by
                intro a ha hb
                rw [List.mem_singleton] at hb
                subst hb
                exact hnotmem ha))
              (by
                intro l hl2
                rcases List.mem_append.mp hl2 with hl3 | hl3
                · exact hval l hl3
                · rw [List.mem_singleton] at hl3
                  subst hl3
                  exact hcond.1)
              (by
                intro l
                rw [List.mem_append, List.mem_singleton, List.mem_cons, hiff l]
                exact or_comm)
          refine ⟨res, hstep.trans heq, hl, hn, hv, ?_⟩
          have hresne : res ≠ [] := by
            intro h0
            have := hi.mp h0
            simp at this
          constructor
          · intro h0
            exact absurd h0 hresne
          · rintro ⟨h0, hall⟩
            have := hall (some link) (List.mem_cons_self _ _) link rfl
            rw [hcond.1] at this
            cases this
        · have hstep : scrapeLoop base detail (some link :: rest) links seen
              = scrapeLoop base detail rest links seen := by
            simp only [scrapeLoop]
            rw [if_neg hfull, if_neg hdata, if_neg hcond]
          obtain ⟨res, heq, hl, hn, hv, hi⟩ := ih links seen hne2 h5 hnd hval hiff
          refine ⟨res, hstep.trans heq, hl, hn, hv, ?_⟩
          rw [hi]
          constructor
          · rintro ⟨h0, hall⟩
            refine ⟨h0, ?_⟩
            intro h2 hh2 s hs
            rcases List.mem_cons.mp hh2 with rfl | hh3
            · injection hs with hs2
              subst hs2
              by_cases hA : isValidNewsLink detail (resolveLink base link) = true
              · have hB : seen.contains (resolveLink base link) = true := by
                  by_contra hB
                  exact hcond ⟨hA, hB⟩
                have hml : resolveLink base link ∈ links :=
                  (hiff _).mpr ((contains_iff_mem seen _).mp hB)
                rw [h0] at hml
                cases hml
              · simp only [Bool.not_eq_true] at hA
                exact hA
            · exact hall h2 hh3 s hs
          · rintro ⟨h0, hall⟩
            exact ⟨h0, fun h2 hh2 s hs => hall h2 (List.mem_cons_of_mem _ hh2) s hs⟩

/-- C10 (amended): on a document whose present hrefs are all nonempty (an
empty href makes the Go code panic at link[0]), ScrapeHeadlines never
panics; any returned list holds at most five pairwise distinct links, each
containing the configured BASE_URL_DETAIL substring and none containing
/comment/; and it returns the "no headlines found" error exactly when no
anchor of the document resolves to a valid link. -/
theorem c10_scrape_headlines (base detail : String) (hrefs : List (Option String))
    (hne : ∀ h ∈ hrefs, h ≠ some "") :
    scrapeHeadlines base detail hrefs ≠ .panicked ∧
    (∀ links, scrapeHeadlines base detail hrefs = .ok links →
      links.length ≤ 5 ∧ links.Nodup ∧
      ∀ l ∈ links, goContains l detail = true ∧ goContains l "/comment/" = false) ∧
    (scrapeHeadlines base detail hrefs = .failed ↔
      ∀ h ∈ hrefs, ∀ s, h = some s →
        isValidNewsLink detail (resolveLink base s) = false) := by
  obtain ⟨res, heq, hl, hn, hv, hi⟩ := scrapeLoop_spec base detail hrefs [] []
    hne (by simp) List.nodup_nil (by simp) (by simp)
  have hvv : ∀ l ∈ res, goContains l detail = true ∧ goContains l "/comment/" = false := by
    intro l hl2
    have := hv l hl2
    simp only [isValidNewsLink, decide_eq_true_eq] at this
    exact ⟨this.2.1, by simp only [Bool.not_eq_true] at this; exact this.2.2⟩
  refine ⟨?_, ?_, ?_⟩
  · rw [scrapeHeadlines, heq]
    cases res <;> simp
  · intro links hok
    rw [scrapeHeadlines, heq] at hok
    cases res with
    | nil => cases hok
    | cons r rs =>
      have hlinks : links = r :: rs := by
        cases hok
        rfl
      subst hlinks
      exact ⟨hl, hn, hvv⟩
  · rw [scrapeHeadlines, heq]
    cases res with
    | nil =>
      simp only [true_and] at hi
      simpa using hi
    | cons r rs =>
      constructor
      · intro hc
        cases hc
      · intro hall
        have : (r :: rs : List String) = [] := hi.mpr ⟨rfl, hall⟩
        cases this

/-- Witness for C10: a document with a single nonempty but invalid href is
answered with the error, not a panic. -/
theorem c10_scrape_headlines_witness :
    scrapeHeadlines "B" "D" [some "x"] = .failed ∧
    scrapeHeadlines "B" "D" [some "x"] ≠ .panicked := by
  have h := c10_scrape_headlines "B" "D" [some "x"] (by decide)
  refine ⟨h.2.2.mpr ?_, h.1⟩
  intro h2 hh2 s hs
  rcases List.mem_cons.mp hh2 with rfl | hh3
  · injection hs with hs2
    subst hs2
    decide
  · cases hh3

/-- Counterexample for C10 as stated: on the document whose only anchor
carries an empty href there is no valid link, yet the function panics
(indexing link[0]) instead of returning the error. -/
theorem c10_counterexample :
    isValidNewsLink "D" (resolveLink "B" "") = false ∧
    scrapeHeadlines "B" "D" [some ""] = .panicked ∧
    scrapeHeadlines "B" "D" [some ""] ≠ .failed := by
  refine ⟨by decide, by decide, by decide⟩

example : goClean "a/b" = "a/b" := by decide
example : goClean "a//b" = "a/b" := by decide
example : goClean "a/./b/../c" = "a/c" := by decide
example : goClean "/../a" = "/a" := by decide
example : goClean "../../x" = "../../x" := by decide
example : goClean "" = "." := by decide
example : goClean "a/b/.." = "a" := by decide
example : goJoin2 "2025-01-01" "2025-01-01_economy_0.md" = "2025-01-01/2025-01-01_economy_0.md" := by decide
example : goJoin2 "a" "" = "a" := by decide
example : goJoin2 "" "" = "" := by decide
example : goTrimPfx "news/2025-01-01/x.md" "news/2025-01-01/" = "x.md" := by decide
example : goContains "abc/comment/d" "/comment/" = true := by decide
example : goContains "abc" "/comment/" = false := by decide
example : cleanANSI "a\x1B[31mb" = "ab" := by decide
example : cleanANSI "a\x1B[12" = "a\x1B[12" := by decide
example : cleanANSI "a\x1B[12;3mb" = "ab" := by decide
example : scrapeHeadlines "B" "D" [some ""] = .panicked := by decide
example : scrapeHeadlines "B" "D" [some "x"] = .failed := by decide
example : scrapeHeadlines "B" "D" [some "aDb", some "aDb", some "aD/comment/b"]
    = .ok ["aDb"] := by decide
example : scrapeHeadlines "hostD" "D" [some "/x"] = .ok ["hostD/x"] := by decide
example :
    (transformHandler (fun _ _ => none) "p1" "p2" "p3" "dp"
      (some ⟨"T", "C", "D"⟩)).1.statusCode = 200 := by decide
example :
    (transformHandler (fun _ _ => none) "p1" "p2" "p3" "dp"
      (some ⟨"T", "C", "D"⟩)).1.body = "# **제목: T**\n\n  내용: C\n\n  **날짜: D**" := by
  decide
example :
    derivePath "2025-01-01" "news/2025-01-01/" "news/2025-01-01/2025-01-01_economy_0.md"
    = "2025-01-01/2025-01-01_economy_0.md" := by decide
example :
    (uploadFiles ⟨false, "h", fun _ => none, fun _ _ => none, fun _ _ _ => none, true⟩
      [] "m").finalHead = "h" := by decide
example :
    listFiles [some ["a", "b"], some ["c"]] = some ["a", "b", "c"] := by decide
example : listFiles [some ["a"], none, some ["c"]] = none := by decide

end NewsPipeline
